import Mathlib

/-!
Shallow embedding of the `george` Gaussian-process package
(`src/george/kernels.py` and `src/george/basic.py`).

Coordinates are embedded as rationals (numpy float arrays of exact
decimal inputs), kernel hyper-parameters and covariance values as real
numbers.  The kernel classes with closed-form evaluation
(`ConstantKernel`, `WhiteKernel`, `DotProductKernel`) and the `Sum` /
`Product` combinators are embedded as an inductive tree `Kern`; the
`RadialKernel` parameter machinery (metric coercion, `vector`
getter/setter) is embedded separately as `RadialPars`.  The GP engine
(`basic.py`) is embedded as a state type plus step relations; the calls
into scipy (`cholesky`, `cho_solve`) are external collaborators and are
embedded by their documented contracts (`IsCholesky`, `choSolve`).
-/

namespace George

noncomputable section

/-- Coordinates of one sample point: one rational per input dimension
(a row of the `(nsamples, ndim)` array). -/
abbrev Point : Type := List ℚ

/-- Squared Euclidean distance between two points, as computed by
`np.sum((x1[:, None] - x2[None, :]) ** 2, axis=-1)` entrywise. -/
def sqDist (p q : Point) : ℚ :=
  (List.zipWith (fun a b => (a - b) ^ 2) p q).sum

/-- Dot product of two points, as computed by
`np.sum(x1[:, None] * x2[None, :], axis=-1)` entrywise. -/
def dotPt (p q : Point) : ℚ :=
  (List.zipWith (· * ·) p q).sum

/-- Kernel expression trees: the closed-form leaf kernels
`ConstantKernel`, `WhiteKernel`, `DotProductKernel` of
`src/george/kernels.py` and the `Sum` / `Product` composites.  Every
node stores its own `dirty` flag (the Python attribute `dirty`); leaves
store their raw hyper-parameter array `_pars`. -/
inductive Kern : Type where
  | constK (ndim : ℕ) (pars : List ℝ) (dirty : Bool)
  | whiteK (ndim : ℕ) (pars : List ℝ) (dirty : Bool)
  | dotK (ndim : ℕ) (pars : List ℝ) (dirty : Bool)
  | sumK (k1 k2 : Kern) (dirty : Bool)
  | prodK (k1 k2 : Kern) (dirty : Bool)

namespace Kern

/-- `kernel.ndim`; a composite reports its first child's `ndim`
(`_operator.__init__` sets `self.ndim = k1.ndim`). -/
def ndim : Kern → ℕ
  | constK n _ _ => n
  | whiteK n _ _ => n
  | dotK n _ _ => n
  | sumK k1 _ _ => k1.ndim
  | prodK k1 _ _ => k1.ndim

/-- The raw hyper-parameter array `kernel.pars`; for a composite it is
`np.append(self.k1.pars, self.k2.pars)`. -/
def pars : Kern → List ℝ
  | constK _ p _ => p
  | whiteK _ p _ => p
  | dotK _ p _ => p
  | sumK k1 k2 _ => k1.pars ++ k2.pars
  | prodK k1 k2 _ => k1.pars ++ k2.pars

/-- The log-parameter vector `kernel.vector`: `np.log(self.pars)` on a
leaf, and the concatenation of the children's vectors on a composite. -/
def vec : Kern → List ℝ
  | constK _ p _ => p.map Real.log
  | whiteK _ p _ => p.map Real.log
  | dotK _ p _ => p.map Real.log
  | sumK k1 k2 _ => k1.vec ++ k2.vec
  | prodK k1 k2 _ => k1.vec ++ k2.vec

/-- `len(kernel)`, defined in the source as `len(self.vector)`. -/
def klen (k : Kern) : ℕ := k.vec.length

/-- The node's own `dirty` attribute. -/
def dirty : Kern → Bool
  | constK _ _ d => d
  | whiteK _ _ d => d
  | dotK _ _ d => d
  | sumK _ _ d => d
  | prodK _ _ d => d

/-- Overwrite the node's own `dirty` attribute (the engine does
`self.kernel.dirty = False` through the `computed` setter). -/
def setDirty : Kern → Bool → Kern
  | constK n p _, b => constK n p b
  | whiteK n p _, b => whiteK n p b
  | dotK n p _, b => dotK n p b
  | sumK k1 k2 _, b => sumK k1 k2 b
  | prodK k1 k2 _, b => prodK k1 k2 b

/-- Assignment `kernel.pars = v`.  On a leaf this is the `pars` setter
of `Kernel`: store the array and set `dirty = True` (`set_pars` is a
no-op for these leaves).  On a composite it is the `pars` setter of
`_operator`: set `dirty = True` and split `v` at `i = len(self.k1)`. -/
def setPars : Kern → List ℝ → Kern
  | constK n _ _, v => constK n v true
  | whiteK n _ _, v => whiteK n v true
  | dotK n _ _, v => dotK n v true
  | sumK k1 k2 _, v =>
      sumK (k1.setPars (v.take k1.klen)) (k2.setPars (v.drop k1.klen)) true
  | prodK k1 k2 _, v =>
      prodK (k1.setPars (v.take k1.klen)) (k2.setPars (v.drop k1.klen)) true

/-- Assignment `kernel.vector = v`.  On a leaf this is the `vector`
setter of `Kernel`: `self.pars = np.exp(v)` (which runs the `pars`
setter).  On a composite it is the `vector` setter of `_operator`:
set `dirty = True` and split `v` at `i = len(self.k1)`. -/
def setVector : Kern → List ℝ → Kern
  | constK n _ _, v => constK n (v.map Real.exp) true
  | whiteK n _ _, v => whiteK n (v.map Real.exp) true
  | dotK n _ _, v => dotK n (v.map Real.exp) true
  | sumK k1 k2 _, v =>
      sumK (k1.setVector (v.take k1.klen)) (k2.setVector (v.drop k1.klen)) true
  | prodK k1 k2 _, v =>
      prodK (k1.setVector (v.take k1.klen)) (k2.setVector (v.drop k1.klen)) true

/-- `kernel(x1, x2)`: the covariance matrix between two coordinate
sets.  `ConstantKernel`: `pars[0] ** 2` everywhere; `WhiteKernel`:
`pars[0] ** 2 * (d == 0.0)` with `d` the squared distance;
`DotProductKernel`: the dot product; `Sum` / `Product`: elementwise
arithmetic on the children. -/
def eval : Kern → {n1 n2 : ℕ} → (Fin n1 → Point) → (Fin n2 → Point) →
    Matrix (Fin n1) (Fin n2) ℝ
  | constK _ p _, _, _, _, _ => fun _ _ => p.headI ^ 2
  | whiteK _ p _, _, _, x1, x2 => fun i j =>
      if sqDist (x1 i) (x2 j) = 0 then p.headI ^ 2 else 0
  | dotK _ _ _, _, _, x1, x2 => fun i j => (dotPt (x1 i) (x2 j) : ℝ)
  | sumK k1 k2 _, _, _, x1, x2 => fun i j =>
      k1.eval x1 x2 i j + k2.eval x1 x2 i j
  | prodK k1 k2 _, _, _, x1, x2 => fun i j =>
      k1.eval x1 x2 i j * k2.eval x1 x2 i j

/-- `kernel.grad(x1, x2)`: the list of per-parameter derivative
matrices (the leading axis of the numpy gradient tensor).
`ConstantKernel`: one matrix `2 * pars[0] ** 2`; `WhiteKernel`: one
matrix `2 * pars[0] ** 2 * (d == 0)`; `DotProductKernel`:
`np.zeros(np.append(1, shape))`, i.e. ONE all-zero matrix even though
the kernel has no parameters; `Sum`: concatenation of the children's
gradients; `Product`: the product rule with each child's covariance
broadcast across the other's parameter axis. -/
def grad : Kern → {n1 n2 : ℕ} → (Fin n1 → Point) → (Fin n2 → Point) →
    List (Matrix (Fin n1) (Fin n2) ℝ)
  | constK _ p _, _, _, _, _ => [fun _ _ => 2 * p.headI ^ 2]
  | whiteK _ p _, _, _, x1, x2 =>
      [fun i j => if sqDist (x1 i) (x2 j) = 0 then 2 * p.headI ^ 2 else 0]
  | dotK _ _ _, _, _, _, _ => [fun _ _ => 0]
  | sumK k1 k2 _, _, _, x1, x2 => k1.grad x1 x2 ++ k2.grad x1 x2
  | prodK k1 k2 _, _, _, x1, x2 =>
      (k1.grad x1 x2).map (fun g => fun i j => g i j * k2.eval x1 x2 i j) ++
      (k2.grad x1 x2).map (fun g => fun i j => g i j * k1.eval x1 x2 i j)

/-- The number of rows of the gradient tensor (its leading-axis
length); independent of the coordinate sets. -/
def gradRows : Kern → ℕ
  | constK _ _ _ => 1
  | whiteK _ _ _ => 1
  | dotK _ _ _ => 1
  | sumK k1 k2 _ => k1.gradRows + k2.gradRows
  | prodK k1 k2 _ => k1.gradRows + k2.gradRows

end Kern

/-- `Sum(k1, k2)`: `_operator.__init__` raises `ValueError` on
`k1.ndim != k2.ndim`, otherwise stores the children and sets
`self.dirty = True`. -/
def mkSum (k1 k2 : Kern) : Except String Kern :=
  if k1.ndim = k2.ndim then .ok (.sumK k1 k2 true)
  else .error "Dimension mismatch"

/-- `Product(k1, k2)`, with the same dimension check as `Sum`. -/
def mkProd (k1 k2 : Kern) : Except String Kern :=
  if k1.ndim = k2.ndim then .ok (.prodK k1 k2 true)
  else .error "Dimension mismatch"

/-- `kernel + b` for a non-kernel scalar `b` (`Kernel.__add__`):
`Sum(ConstantKernel(np.sqrt(np.abs(float(b))), ndim=self.ndim), self)`.
The fresh `ConstantKernel` has `dirty = True` (its constructor runs the
`pars` setter), as does the fresh `Sum`. -/
def addScalar (k : Kern) (b : ℝ) : Kern :=
  .sumK (.constK k.ndim [Real.sqrt |b|] true) k true

/-- `b + kernel` (`Kernel.__radd__` simply calls `__add__`). -/
def raddScalar (k : Kern) (b : ℝ) : Kern := addScalar k b

/-- `kernel * b` for a non-kernel scalar `b` (`Kernel.__mul__`):
`Product(ConstantKernel(np.sqrt(np.abs(float(b))), ndim=self.ndim), self)`. -/
def mulScalar (k : Kern) (b : ℝ) : Kern :=
  .prodK (.constK k.ndim [Real.sqrt |b|] true) k true

/-- `b * kernel` (`Kernel.__rmul__` simply calls `__mul__`). -/
def rmulScalar (k : Kern) (b : ℝ) : Kern := mulScalar k b

/-- The gradient tensor's leading axis has length `gradRows`. -/
theorem grad_length (k : Kern) {n1 n2 : ℕ} (X1 : Fin n1 → Point)
    (X2 : Fin n2 → Point) : (k.grad X1 X2).length = k.gradRows := by
  induction k with
  | constK n p d => rfl
  | whiteK n p d => rfl
  | dotK n p d => rfl
  | sumK k1 k2 d h1 h2 =>
      simp [Kern.grad, Kern.gradRows, h1, h2]
  | prodK k1 k2 d h1 h2 =>
      simp [Kern.grad, Kern.gradRows, h1, h2]

/-- C4: for kernels of equal `ndim`, `Sum(k1, k2)` and `Product(k1, k2)`
have parameter count `len(k1) + len(k2)` and evaluate elementwise to the
sum (resp. product) of the children's evaluations. -/
theorem C4_sum_product_len_eval (k1 k2 ks kp : Kern)
    (hs : mkSum k1 k2 = .ok ks) (hp : mkProd k1 k2 = .ok kp) :
    ks.klen = k1.klen + k2.klen ∧ kp.klen = k1.klen + k2.klen ∧
    (∀ {n1 n2 : ℕ} (X1 : Fin n1 → Point) (X2 : Fin n2 → Point)
      (i : Fin n1) (j : Fin n2),
      ks.eval X1 X2 i j = k1.eval X1 X2 i j + k2.eval X1 X2 i j) ∧
    (∀ {n1 n2 : ℕ} (X1 : Fin n1 → Point) (X2 : Fin n2 → Point)
      (i : Fin n1) (j : Fin n2),
      kp.eval X1 X2 i j = k1.eval X1 X2 i j * k2.eval X1 X2 i j) := by
  unfold mkSum at hs
  unfold mkProd at hp
  by_cases hnd : k1.ndim = k2.ndim
  · rw [if_pos hnd] at hs
    rw [if_pos hnd] at hp
    cases hs
    cases hp
    refine ⟨?_, ?_, ?_, ?_⟩
    · simp [Kern.klen, Kern.vec]
    · simp [Kern.klen, Kern.vec]
    · intro n1 n2 X1 X2 i j
      rfl
    · intro n1 n2 X1 X2 i j
      rfl
  · rw [if_neg hnd] at hs
    cases hs

/-- Concrete kernels for the C4 witness. -/
def c4k1 : Kern := .constK 1 [2] true

/-- Second concrete kernel for the C4 witness. -/
def c4k2 : Kern := .whiteK 1 [3] true

/-- Concrete single-point coordinate set. -/
def onePt : Fin 1 → Point := fun _ => [1]

/-- Witness for C4 at `ConstantKernel(2)` and `WhiteKernel(3)` on a
single coordinate. -/
theorem C4_sum_product_len_eval_witness :
    Kern.klen (.sumK c4k1 c4k2 true) = c4k1.klen + c4k2.klen ∧
    Kern.klen (.prodK c4k1 c4k2 true) = c4k1.klen + c4k2.klen ∧
    Kern.eval (.sumK c4k1 c4k2 true) onePt onePt 0 0 =
      c4k1.eval onePt onePt 0 0 + c4k2.eval onePt onePt 0 0 ∧
    Kern.eval (.prodK c4k1 c4k2 true) onePt onePt 0 0 =
      c4k1.eval onePt onePt 0 0 * c4k2.eval onePt onePt 0 0 := by
  have h := C4_sum_product_len_eval c4k1 c4k2 (.sumK c4k1 c4k2 true)
    (.prodK c4k1 c4k2 true) rfl rfl
  exact ⟨h.1, h.2.1, h.2.2.1 onePt onePt 0 0, h.2.2.2 onePt onePt 0 0⟩

/-- The `Product` of `DotProductKernel` (no parameters, but one
gradient row) with `ConstantKernel(1)`, used to refute the alignment
part of C5. -/
def dotConstProd : Kern := .prodK (.dotK 1 [] true) (.constK 1 [1] true) true

/-- C5 counterexample: `Product(DotProductKernel(), ConstantKernel(1))`
has one parameter but its gradient has two rows (`DotProductKernel.grad`
returns a spurious all-zero row although `len(DotProductKernel()) = 0`),
so the gradient rows cannot be in the same order as the composite
parameter vector. -/
theorem C5_product_grad_counterexample :
    (Kern.grad dotConstProd onePt onePt).length = 2 ∧
    Kern.klen dotConstProd = 1 ∧
    (Kern.grad dotConstProd onePt onePt).length ≠ Kern.klen dotConstProd := by
  refine ⟨rfl, ?_, ?_⟩
  · simp [dotConstProd, Kern.klen, Kern.vec]
  · simp [dotConstProd, Kern.klen, Kern.vec, Kern.grad]

/-- C5 (amended): `Product(k1, k2).grad` is the concatenation of
`grad(k1)` scaled elementwise by `k2(X1, X2)` followed by `grad(k2)`
scaled elementwise by `k1(X1, X2)`; row `p` of the first block is
`grad(k1)[p] * k2(X1, X2)` and row `gradRows(k1) + p` of the second
block is `grad(k2)[p] * k1(X1, X2)`; and whenever both children's
gradient row counts equal their parameter counts, the composite's
gradient rows are indexed exactly like its parameter vector. -/
theorem C5_product_grad (k1 k2 : Kern) (d : Bool) {n1 n2 : ℕ}
    (X1 : Fin n1 → Point) (X2 : Fin n2 → Point) :
    (Kern.prodK k1 k2 d).grad X1 X2 =
      (k1.grad X1 X2).map (fun g => fun i j => g i j * k2.eval X1 X2 i j) ++
      (k2.grad X1 X2).map (fun g => fun i j => g i j * k1.eval X1 X2 i j) ∧
    (∀ p, p < k1.gradRows →
      ((Kern.prodK k1 k2 d).grad X1 X2).getD p 0 =
        fun i j => (k1.grad X1 X2).getD p 0 i j * k2.eval X1 X2 i j) ∧
    (∀ p, p < k2.gradRows →
      ((Kern.prodK k1 k2 d).grad X1 X2).getD (k1.gradRows + p) 0 =
        fun i j => (k2.grad X1 X2).getD p 0 i j * k1.eval X1 X2 i j) ∧
    (k1.gradRows = k1.klen → k2.gradRows = k2.klen →
      ((Kern.prodK k1 k2 d).grad X1 X2).length = (Kern.prodK k1 k2 d).klen) := by
  refine ⟨rfl, ?_, ?_, ?_⟩
  · intro p hp
    have hp1 : p < (k1.grad X1 X2).length := by
      rw [grad_length]
      exact hp
    have hm : p <
        ((k1.grad X1 X2).map
          (fun g => fun i j => g i j * k2.eval X1 X2 i j)).length := by
      rw [List.length_map]
      exact hp1
    show ((k1.grad X1 X2).map _ ++ (k2.grad X1 X2).map _).getD p 0 = _
    rw [List.getD_append _ _ _ _ hm, List.getD_eq_getElem _ _ hm,
      List.getElem_map, List.getD_eq_getElem _ _ hp1]
  · intro p hp
    have hlen :
        ((k1.grad X1 X2).map
          (fun g => fun i j => g i j * k2.eval X1 X2 i j)).length =
          k1.gradRows := by
      rw [List.length_map, grad_length]
    have hge : ((k1.grad X1 X2).map
        (fun g => fun i j => g i j * k2.eval X1 X2 i j)).length ≤
        k1.gradRows + p := by
      rw [hlen]
      exact Nat.le_add_right _ _
    have hp2 : p < (k2.grad X1 X2).length := by
      rw [grad_length]
      exact hp
    have hm2 : k1.gradRows + p -
        ((k1.grad X1 X2).map
          (fun g => fun i j => g i j * k2.eval X1 X2 i j)).length = p := by
      rw [hlen]
      exact Nat.add_sub_cancel_left _ _
    show ((k1.grad X1 X2).map _ ++ (k2.grad X1 X2).map _).getD _ 0 = _
    rw [List.getD_append_right _ _ _ _ hge, hm2]
    have hm3 : p < ((k2.grad X1 X2).map
        (fun g => fun i j => g i j * k1.eval X1 X2 i j)).length := by
      rw [List.length_map]
      exact hp2
    rw [List.getD_eq_getElem _ _ hm3, List.getElem_map,
      List.getD_eq_getElem _ _ hp2]
  · intro h1 h2
    show ((k1.grad X1 X2).map _ ++ (k2.grad X1 X2).map _).length = _
    rw [List.length_append, List.length_map, List.length_map,
      grad_length, grad_length, h1, h2]
    simp [Kern.klen, Kern.vec]

/-- Witness for C5 (amended) at `ConstantKernel(2) * WhiteKernel(3)`
on a single coordinate, row 0 of each block. -/
theorem C5_product_grad_witness :
    (Kern.prodK c4k1 c4k2 true).grad onePt onePt =
      (c4k1.grad onePt onePt).map
        (fun g => fun i j => g i j * c4k2.eval onePt onePt i j) ++
      (c4k2.grad onePt onePt).map
        (fun g => fun i j => g i j * c4k1.eval onePt onePt i j) ∧
    ((Kern.prodK c4k1 c4k2 true).grad onePt onePt).getD 0 0 =
      (fun i j => (c4k1.grad onePt onePt).getD 0 0 i j *
        c4k2.eval onePt onePt i j) ∧
    ((Kern.prodK c4k1 c4k2 true).grad onePt onePt).getD
        (c4k1.gradRows + 0) 0 =
      (fun i j => (c4k2.grad onePt onePt).getD 0 0 i j *
        c4k1.eval onePt onePt i j) ∧
    ((Kern.prodK c4k1 c4k2 true).grad onePt onePt).length =
      (Kern.prodK c4k1 c4k2 true).klen := by
  have h := C5_product_grad c4k1 c4k2 true onePt onePt
  refine ⟨h.1, h.2.1 0 (by decide), h.2.2.1 0 (by decide), h.2.2.2 ?_ ?_⟩
  · simp [c4k1, Kern.gradRows, Kern.klen, Kern.vec]
  · simp [c4k2, Kern.gradRows, Kern.klen, Kern.vec]

/-- C10: combining a kernel with a non-kernel scalar `b` on either side
builds `Sum`/`Product` with `ConstantKernel(sqrt(abs(b)), ndim=k.ndim)`
as first child, so combining with a negative scalar is identical to
combining with its absolute value (e.g. `k + (-4)` equals `k + 4`). -/
theorem C10_scalar_combination (k : Kern) (b : ℝ) :
    addScalar k b = .sumK (.constK k.ndim [Real.sqrt |b|] true) k true ∧
    raddScalar k b = addScalar k b ∧
    mulScalar k b = .prodK (.constK k.ndim [Real.sqrt |b|] true) k true ∧
    rmulScalar k b = mulScalar k b ∧
    addScalar k b = addScalar k |b| ∧
    mulScalar k b = mulScalar k |b| ∧
    addScalar k (-4) = addScalar k 4 := by
  have habs : Real.sqrt |b| = Real.sqrt (|(|b|)|) := by rw [abs_abs]
  refine ⟨rfl, rfl, rfl, rfl, ?_, ?_, ?_⟩
  · unfold addScalar
    rw [habs]
  · unfold mulScalar
    rw [habs]
  · unfold addScalar
    norm_num

/-! ### RadialKernel parameter machinery (`RadialKernel` in kernels.py)

Only the hyper-parameter bookkeeping (metric coercion and the `vector`
getter/setter) is embedded here; `set_pars`'s rebuild of the metric
Cholesky factor and the dirty flag are irrelevant to the parameter
claims (the dirty flag is covered on `Kern`). -/

/-- Triangle numbers `tri d = d * (d + 1) / 2`, recursively. -/
def tri : ℕ → ℕ
  | 0 => 0
  | d + 1 => tri d + d + 1

/-- `tri` agrees with the closed form used by the source
(`(ndim * ndim + ndim) / 2`). -/
theorem tri_eq (d : ℕ) : tri d = d * (d + 1) / 2 := by
  induction d with
  | zero => rfl
  | succ d ih =>
      have h : (d + 1) * (d + 1 + 1) = d * (d + 1) + 2 * (d + 1) := by ring
      show tri d + d + 1 = (d + 1) * (d + 1 + 1) / 2
      rw [h, Nat.add_mul_div_left _ _ (by norm_num : (0:ℕ) < 2), ← ih]
      omega

/-- The row-major lower-triangle entries of the `d × d` diagonal matrix
with diagonal `f`, as produced by `np.diag(...)[np.tri(d, dtype=bool)]`. -/
def diagTril (d : ℕ) (f : ℕ → ℝ) : List ℝ :=
  (List.range d).flatMap fun i =>
    (List.range (i + 1)).map fun j => if j = i then f i else 0

theorem diagTril_succ (d : ℕ) (f : ℕ → ℝ) :
    diagTril (d + 1) f = diagTril d f ++
      (List.range (d + 1)).map fun j => if j = d then f d else 0 := by
  unfold diagTril
  conv_lhs => rw [List.range_succ]
  rw [List.flatMap_append]
  simp

theorem diagTril_length (d : ℕ) (f : ℕ → ℝ) :
    (diagTril d f).length = tri d := by
  induction d with
  | zero => rfl
  | succ d ih =>
      rw [diagTril_succ, List.length_append, ih, List.length_map,
        List.length_range]
      show tri d + (d + 1) = tri d + d + 1
      omega

theorem tri_add_lt (i d : ℕ) (h : i < d) : tri i + i < tri d := by
  induction d with
  | zero => omega
  | succ d ih =>
      rcases Nat.lt_or_ge i d with h1 | h1
      · have := ih h1
        show tri i + i < tri d + d + 1
        omega
      · have hid : i = d := by omega
        subst hid
        show tri i + i < tri i + i + 1
        omega

theorem diagTril_getD (d i : ℕ) (f : ℕ → ℝ) (h : i < d) :
    (diagTril d f).getD (tri i + i) 0 = f i := by
  induction d with
  | zero => omega
  | succ d ih =>
      rw [diagTril_succ]
      rcases Nat.lt_or_ge i d with h1 | h1
      · rw [List.getD_append]
        · exact ih h1
        · rw [diagTril_length]
          exact tri_add_lt i d h1
      · have hid : i = d := by omega
        subst hid
        rw [List.getD_append_right]
        · rw [diagTril_length]
          have hsub : tri i + i - tri i = i := by omega
          rw [hsub]
          have hl : i < ((List.range (i + 1)).map
              fun j => if j = i then f i else 0).length := by
            simp
          rw [List.getD_eq_getElem _ _ hl, List.getElem_map]
          simp
        · rw [diagTril_length]
          omega

/-- Entry `(i, j)` of the symmetric matrix rebuilt from a row-major
lower-triangle list by `_build_matrix` (fill the lower triangle, add
the transpose, halve the diagonal). -/
def matEntry (l : List ℝ) (i j : ℕ) : ℝ :=
  if j ≤ i then l.getD (i * (i + 1) / 2 + j) 0
  else l.getD (j * (j + 1) / 2 + i) 0

theorem matEntry_diagTril (d i : ℕ) (f : ℕ → ℝ) (h : i < d) :
    matEntry (diagTril d f) i i = f i := by
  unfold matEntry
  rw [if_pos (le_refl i), ← tri_eq]
  exact diagTril_getD d i f h

theorem zero_mem_diagTril (d : ℕ) (f : ℕ → ℝ) (h : 2 ≤ d) :
    (0 : ℝ) ∈ diagTril d f := by
  unfold diagTril
  rw [List.mem_flatMap]
  refine ⟨1, ?_, ?_⟩
  · rw [List.mem_range]
    omega
  · rw [List.mem_map]
    exact ⟨0, by simp, by simp⟩

/-- The hyper-parameter state of a `RadialKernel`: input dimension,
number of leading non-metric (`extra`) parameters, the
isotropic/axis-aligned flags (Python `None`/`True`), and the raw
parameter array `pars`. -/
structure RadialPars where
  ndim : ℕ
  nextra : ℕ
  isotropic : Option Bool
  axisAligned : Option Bool
  pars : List ℝ

/-- `RadialKernel._coerce_metric`: turn a metric specification into the
row-major lower-triangle parameter list, resolving the
isotropic/axis-aligned flags when they were not given, and raising
`ValueError` on a conflicting or mis-sized specification.  Returns the
coerced parameters together with the updated flags. -/
def coerceMetric (ndim : ℕ) (iso axis : Option Bool) (metric : List ℝ) :
    Except String (List ℝ × Option Bool × Option Bool) :=
  if metric.length = 1 then
    .ok (diagTril ndim (fun _ => metric.headI),
      (if iso = none then some true else iso), axis)
  else if iso.getD false then
    .error "Isotropic kernels only take one metric parameter"
  else if metric.length = ndim then
    .ok (diagTril ndim (fun i => metric.getD i 0),
      iso, (if axis = none then some true else axis))
  else if metric.length = ndim * (ndim + 1) / 2 then
    if axis.getD false then
      .error "Axis-aligned kernels can only take a diagonal metric"
    else .ok (metric, iso, axis)
  else .error "Dimension mismatch"

/-- `RadialKernel.__init__`: 1-D stores `np.append(extra, metric)`
directly; higher dimensions coerce the metric first. -/
def mkRadial (metric : List ℝ) (ndim : ℕ) (extra : List ℝ)
    (axisAligned isotropic : Option Bool) : Except String RadialPars :=
  if ndim = 1 then .ok ⟨1, extra.length, isotropic, axisAligned, extra ++ metric⟩
  else
    match coerceMetric ndim isotropic axisAligned metric with
    | .error e => .error e
    | .ok (p, iso, ax) => .ok ⟨ndim, extra.length, iso, ax, extra ++ p⟩

/-- The `vector` getter of `RadialKernel`: `np.log(self.pars)` for 1-D;
for an isotropic metric, the log of the extras followed by
`matrix[0, 0]`; for an axis-aligned metric, the log of the extras
followed by the matrix diagonal; otherwise `np.log(self.pars)`.  The
`matrix` attribute is the one `set_pars` rebuilds from
`pars[nextra:]` via `_build_matrix` (here `matEntry`). -/
def rkVector (k : RadialPars) : List ℝ :=
  if k.ndim = 1 then k.pars.map Real.log
  else if k.isotropic.getD false then
    (k.pars.take k.nextra ++ [matEntry (k.pars.drop k.nextra) 0 0]).map Real.log
  else if k.axisAligned.getD false then
    (k.pars.take k.nextra ++
      (List.range k.ndim).map
        (fun i => matEntry (k.pars.drop k.nextra) i i)).map Real.log
  else k.pars.map Real.log

/-- The `vector` setter of `RadialKernel`: 1-D sets
`self.pars = np.exp(v)`; otherwise it coerces `np.exp(v[nextra:])` as a
metric and stores `np.append(np.exp(v[:nextra]), p)`. -/
def rkSetVector (k : RadialPars) (v : List ℝ) : Except String RadialPars :=
  if k.ndim = 1 then .ok { k with pars := v.map Real.exp }
  else
    match coerceMetric k.ndim k.isotropic k.axisAligned
        ((v.drop k.nextra).map Real.exp) with
    | .error e => .error e
    | .ok (p, iso, ax) =>
        .ok { k with
          pars := (v.take k.nextra).map Real.exp ++ p
          isotropic := iso
          axisAligned := ax }

/-- Taking logs undoes taking exponentials, elementwise. -/
theorem map_log_map_exp (v : List ℝ) : (v.map Real.exp).map Real.log = v := by
  rw [List.map_map]
  have h : Real.log ∘ Real.exp = id := by
    funext x
    simp [Real.log_exp]
  rw [h, List.map_id]

/-- On every kernel tree the visible `vector` is `np.log(pars)`. -/
theorem kern_vec_log (k : Kern) : k.vec = k.pars.map Real.log := by
  induction k with
  | constK n p d => rfl
  | whiteK n p d => rfl
  | dotK n p d => rfl
  | sumK k1 k2 d ih1 ih2 => simp [Kern.vec, Kern.pars, ih1, ih2]
  | prodK k1 k2 d ih1 ih2 => simp [Kern.vec, Kern.pars, ih1, ih2]

/-- Reading `vector` back after assigning it returns the assigned
vector, on every kernel tree. -/
theorem kern_setVector_vec (k : Kern) (v : List ℝ) :
    (k.setVector v).vec = v := by
  induction k generalizing v with
  | constK n p d => exact map_log_map_exp v
  | whiteK n p d => exact map_log_map_exp v
  | dotK n p d => exact map_log_map_exp v
  | sumK k1 k2 d ih1 ih2 =>
      show (k1.setVector (v.take k1.klen)).vec ++
        (k2.setVector (v.drop k1.klen)).vec = v
      rw [ih1, ih2, List.take_append_drop]
  | prodK k1 k2 d ih1 ih2 =>
      show (k1.setVector (v.take k1.klen)).vec ++
        (k2.setVector (v.drop k1.klen)).vec = v
      rw [ih1, ih2, List.take_append_drop]

/-- After assigning `vector`, all raw parameters are exponentials,
hence strictly positive, on every kernel tree. -/
theorem kern_setVector_pos (k : Kern) (v : List ℝ) :
    ∀ r ∈ (k.setVector v).pars, 0 < r := by
  induction k generalizing v with
  | constK n p d =>
      intro r hr
      obtain ⟨a, _, ha⟩ := List.mem_map.mp hr
      exact ha ▸ Real.exp_pos a
  | whiteK n p d =>
      intro r hr
      obtain ⟨a, _, ha⟩ := List.mem_map.mp hr
      exact ha ▸ Real.exp_pos a
  | dotK n p d =>
      intro r hr
      obtain ⟨a, _, ha⟩ := List.mem_map.mp hr
      exact ha ▸ Real.exp_pos a
  | sumK k1 k2 d ih1 ih2 =>
      intro r hr
      rcases List.mem_append.mp hr with h | h
      · exact ih1 _ r h
      · exact ih2 _ r h
  | prodK k1 k2 d ih1 ih2 =>
      intro r hr
      rcases List.mem_append.mp hr with h | h
      · exact ih1 _ r h
      · exact ih2 _ r h

/-- `tri d` exceeds `d` once `d ≥ 2` (so the three metric encodings
have pairwise distinct lengths there). -/
theorem tri_gt (d : ℕ) (h : 2 ≤ d) : d + 1 ≤ tri d := by
  induction d with
  | zero => omega
  | succ d ih =>
      rcases Nat.lt_or_ge d 2 with h1 | h1
      · have hd1 : d = 1 := by omega
        subst hd1
        decide
      · have := ih h1
        show d + 1 + 1 ≤ tri d + d + 1
        omega

/-- The `vector` getter on a 1-D radial kernel. -/
theorem rkVector_one (nx : ℕ) (iso ax : Option Bool) (p : List ℝ) :
    rkVector ⟨1, nx, iso, ax, p⟩ = p.map Real.log := by
  unfold rkVector
  simp

/-- The `vector` setter on a 1-D radial kernel. -/
theorem rkSetVector_one (nx : ℕ) (iso ax : Option Bool) (p v : List ℝ) :
    rkSetVector ⟨1, nx, iso, ax, p⟩ v =
      .ok ⟨1, nx, iso, ax, v.map Real.exp⟩ := by
  unfold rkSetVector
  simp

/-- The `vector` getter when neither flag is set (full metric). -/
theorem rkVector_full (nd nx : ℕ) (iso ax : Option Bool) (p : List ℝ)
    (hne1 : nd ≠ 1) (hiso : iso.getD false = false)
    (hax : ax.getD false = false) :
    rkVector ⟨nd, nx, iso, ax, p⟩ = p.map Real.log := by
  unfold rkVector
  simp [hne1, hiso, hax]

/-- The `vector` setter when neither flag is set and the metric slice
has the full triangular length. -/
theorem rkSetVector_full (nd nx : ℕ) (iso ax : Option Bool) (p v : List ℝ)
    (hne1 : nd ≠ 1) (hiso : iso.getD false = false)
    (hax : ax.getD false = false)
    (hl2 : v.length - nx = nd * (nd + 1) / 2)
    (hl1 : ¬ nd * (nd + 1) / 2 = 1) (hlnd : ¬ nd * (nd + 1) / 2 = nd) :
    rkSetVector ⟨nd, nx, iso, ax, p⟩ v =
      .ok ⟨nd, nx, iso, ax,
        (v.take nx).map Real.exp ++ (v.drop nx).map Real.exp⟩ := by
  unfold rkSetVector coerceMetric
  simp [hne1, hiso, hax, hl2, hl1, hlnd]

/-- The `vector` getter on an isotropic multi-dimensional radial
kernel: log of the extras followed by `matrix[0, 0]`. -/
theorem rkVector_iso_get (nd nx : ℕ) (ax : Option Bool) (p : List ℝ)
    (hne1 : nd ≠ 1) :
    rkVector ⟨nd, nx, some true, ax, p⟩ =
      (p.take nx ++ [matEntry (p.drop nx) 0 0]).map Real.log := by
  unfold rkVector
  simp [hne1]

/-- The `vector` setter on an isotropic multi-dimensional radial
kernel: the single metric entry is broadcast onto the diagonal. -/
theorem rkSetVector_iso (nd nx : ℕ) (ax : Option Bool) (p v : List ℝ)
    (hne1 : nd ≠ 1) (hl1 : v.length - nx = 1) :
    rkSetVector ⟨nd, nx, some true, ax, p⟩ v =
      .ok ⟨nd, nx, some true, ax,
        (v.take nx).map Real.exp ++
          diagTril nd (fun _ => ((v.drop nx).map Real.exp).headI)⟩ := by
  unfold rkSetVector coerceMetric
  simp [hne1, hl1]

/-- The `vector` getter on an axis-aligned multi-dimensional radial
kernel: log of the extras followed by the matrix diagonal. -/
theorem rkVector_axis_get (nd nx : ℕ) (iso : Option Bool) (p : List ℝ)
    (hne1 : nd ≠ 1) (hiso : iso.getD false = false) :
    rkVector ⟨nd, nx, iso, some true, p⟩ =
      (p.take nx ++ (List.range nd).map
        (fun i => matEntry (p.drop nx) i i)).map Real.log := by
  unfold rkVector
  simp [hne1, hiso]

/-- The `vector` setter on an axis-aligned multi-dimensional radial
kernel: the per-axis variances are placed on the diagonal. -/
theorem rkSetVector_axis (nd nx : ℕ) (iso : Option Bool) (p v : List ℝ)
    (hne1 : nd ≠ 1) (hiso : iso.getD false = false)
    (hl1 : ¬ v.length - nx = 1) (hlnd : v.length - nx = nd) :
    rkSetVector ⟨nd, nx, iso, some true, p⟩ v =
      .ok ⟨nd, nx, iso, some true,
        (v.take nx).map Real.exp ++
          diagTril nd (fun i => ((v.drop nx).map Real.exp).getD i 0)⟩ := by
  unfold rkSetVector coerceMetric
  simp [hne1, hiso, hl1, hlnd]

/-- The isotropic 2-D radial kernel built from the scalar metric `2`:
its raw parameters are the lower-triangle entries `[2, 0, 2]`. -/
def rkIso : RadialPars := ⟨2, 0, some true, none, [2, 0, 2]⟩

/-- `rkIso` after the assignment `vector = [0]`. -/
def rkIsoSet : RadialPars := ⟨2, 0, some true, none, [1, 0, 1]⟩

/-- C6 counterexample: for the isotropic 2-D radial kernel with metric
`2`, the visible parameter vector is NOT the elementwise log of the raw
parameters (their lengths are 1 vs 3), and after assigning `vector = [0]`
the raw parameters are `[1, 0, 1]`, which are not all strictly
positive. -/
theorem C6_log_roundtrip_counterexample :
    mkRadial [2] 2 [] none none = .ok rkIso ∧
    rkVector rkIso ≠ rkIso.pars.map Real.log ∧
    rkSetVector rkIso [0] = .ok rkIsoSet ∧
    (0 : ℝ) ∈ rkIsoSet.pars ∧ ¬ (0 : ℝ) < (0 : ℝ) := by
  refine ⟨?_, ?_, ?_, ?_, lt_irrefl 0⟩
  · simp [mkRadial, coerceMetric, diagTril, rkIso, List.range_succ]
  · intro h
    have hl := congrArg List.length h
    simp [rkVector, rkIso] at hl
  · simp [rkSetVector, coerceMetric, diagTril, rkIso, rkIsoSet,
      Real.exp_zero, List.range_succ]
  · simp [rkIsoSet]

/-- C6 (amended): `vector = log(pars)` with exponentiating assignment,
set-then-get round trip, and strict positivity of the raw parameters
hold for every kernel tree, for 1-D radial kernels, and for radial
kernels with a full (general) metric.  For isotropic and axis-aligned
radial kernels with `ndim ≥ 2` the set-then-get round trip still holds,
but the visible vector is the log of the extras plus the distinct
metric entries (not of `pars` elementwise) and the raw parameters
contain zero off-diagonal entries. -/
theorem C6_log_param_roundtrip
    (k : Kern) (v : List ℝ)
    (r1 : RadialPars) (v1 : List ℝ) (h1 : r1.ndim = 1)
    (rf : RadialPars) (vf : List ℝ) (hf2 : 2 ≤ rf.ndim)
    (hfi : rf.isotropic.getD false = false)
    (hfa : rf.axisAligned.getD false = false)
    (hvf : vf.length = rf.nextra + tri rf.ndim)
    (ri : RadialPars) (vi : List ℝ) (hi2 : 2 ≤ ri.ndim)
    (hii : ri.isotropic = some true)
    (hvi : vi.length = ri.nextra + 1)
    (ra : RadialPars) (va : List ℝ) (ha2 : 2 ≤ ra.ndim)
    (hai : ra.isotropic.getD false = false)
    (haa : ra.axisAligned = some true)
    (hva : va.length = ra.nextra + ra.ndim) :
    (k.vec = k.pars.map Real.log ∧ (k.setVector v).vec = v ∧
      ∀ r ∈ (k.setVector v).pars, 0 < r) ∧
    (rkVector r1 = r1.pars.map Real.log ∧
      ∃ q, rkSetVector r1 v1 = .ok q ∧ rkVector q = v1 ∧
        ∀ r ∈ q.pars, 0 < r) ∧
    (rkVector rf = rf.pars.map Real.log ∧
      ∃ q, rkSetVector rf vf = .ok q ∧ rkVector q = vf ∧
        ∀ r ∈ q.pars, 0 < r) ∧
    (∃ q, rkSetVector ri vi = .ok q ∧ rkVector q = vi ∧ (0 : ℝ) ∈ q.pars) ∧
    (∃ q, rkSetVector ra va = .ok q ∧ rkVector q = va ∧ (0 : ℝ) ∈ q.pars) := by
  have hexp_pos : ∀ (w : List ℝ) (r : ℝ), r ∈ w.map Real.exp → 0 < r := by
    intro w r hr
    obtain ⟨a, _, ha⟩ := List.mem_map.mp hr
    exact ha ▸ Real.exp_pos a
  refine ⟨⟨kern_vec_log k, kern_setVector_vec k v, kern_setVector_pos k v⟩,
    ?_, ?_, ?_, ?_⟩
  · -- 1-D radial kernel.
    obtain ⟨nd1, nx1, iso1, ax1, p1⟩ := r1
    have hnd : nd1 = 1 := h1
    subst hnd
    refine ⟨rkVector_one _ _ _ _, ⟨1, nx1, iso1, ax1, v1.map Real.exp⟩,
      rkSetVector_one _ _ _ _ _, ?_, ?_⟩
    · rw [rkVector_one]
      exact map_log_map_exp v1
    · exact fun r hr => hexp_pos v1 r hr
  · -- Full (general) metric: the coercion passes the metric through.
    obtain ⟨nd, nx, iso, ax, p⟩ := rf
    have hf2a : 2 ≤ nd := hf2
    have hfia : iso.getD false = false := hfi
    have hfaa : ax.getD false = false := hfa
    have hvfa : vf.length = nx + tri nd := hvf
    have hne1 : nd ≠ 1 := by omega
    have hdl : vf.length - nx = tri nd := by
      rw [hvfa]
      omega
    have htg := tri_gt nd hf2a
    have hl2 : vf.length - nx = nd * (nd + 1) / 2 := by
      rw [hdl, tri_eq]
    have hl1 : ¬ nd * (nd + 1) / 2 = 1 := by
      rw [← tri_eq]
      omega
    have hlnd : ¬ nd * (nd + 1) / 2 = nd := by
      rw [← tri_eq]
      omega
    have hpars : (vf.take nx).map Real.exp ++ (vf.drop nx).map Real.exp =
        vf.map Real.exp := by
      rw [← List.map_append, List.take_append_drop]
    refine ⟨rkVector_full _ _ _ _ _ hne1 hfia hfaa,
      ⟨nd, nx, iso, ax, (vf.take nx).map Real.exp ++ (vf.drop nx).map Real.exp⟩,
      rkSetVector_full nd nx iso ax p vf hne1 hfia hfaa hl2 hl1 hlnd, ?_, ?_⟩
    · rw [rkVector_full _ _ _ _ _ hne1 hfia hfaa]
      show ((vf.take nx).map Real.exp ++ (vf.drop nx).map Real.exp).map
        Real.log = vf
      rw [hpars]
      exact map_log_map_exp vf
    · intro r hr
      have hr2 : r ∈ (vf.take nx).map Real.exp ++
          (vf.drop nx).map Real.exp := hr
      rw [hpars] at hr2
      exact hexp_pos vf r hr2
  · -- Isotropic metric with ndim ≥ 2.
    obtain ⟨nd, nx, iso, ax, p⟩ := ri
    have hi2a : 2 ≤ nd := hi2
    have hiia : iso = some true := hii
    subst hiia
    have hvia : vi.length = nx + 1 := hvi
    have hne1 : nd ≠ 1 := by omega
    have hd : (vi.drop nx).length = 1 := by
      rw [List.length_drop, hvia]
      omega
    have hd2 : vi.length - nx = 1 := by
      rw [hvia]
      omega
    obtain ⟨a, hda⟩ := List.length_eq_one.mp hd
    have htake : ((vi.take nx).map Real.exp).length = nx := by
      rw [List.length_map, List.length_take, hvia]
      omega
    refine ⟨⟨nd, nx, some true, ax,
        (vi.take nx).map Real.exp ++
          diagTril nd (fun _ => ((vi.drop nx).map Real.exp).headI)⟩,
      rkSetVector_iso nd nx ax p vi hne1 hd2, ?_, ?_⟩
    · rw [rkVector_iso_get nd nx ax _ hne1]
      rw [List.take_left' htake, List.drop_left' htake,
        matEntry_diagTril _ 0 _ (by omega : 0 < nd), hda]
      show ((vi.take nx).map Real.exp ++ [a].map Real.exp).map Real.log = vi
      rw [← List.map_append, map_log_map_exp, ← hda, List.take_append_drop]
    · show (0 : ℝ) ∈ (vi.take nx).map Real.exp ++
        diagTril nd (fun _ => ((vi.drop nx).map Real.exp).headI)
      exact List.mem_append_right _ (zero_mem_diagTril _ _ hi2a)
  · -- Axis-aligned metric with ndim ≥ 2.
    obtain ⟨nd, nx, iso, ax, p⟩ := ra
    have ha2a : 2 ≤ nd := ha2
    have haia : iso.getD false = false := hai
    have haaa : ax = some true := haa
    subst haaa
    have hvaa : va.length = nx + nd := hva
    have hne1 : nd ≠ 1 := by omega
    have hdl : (va.drop nx).length = nd := by
      rw [List.length_drop, hvaa]
      omega
    have hdl2 : va.length - nx = nd := by
      rw [hvaa]
      omega
    have hl1 : ¬ va.length - nx = 1 := by
      rw [hdl2]
      omega
    have htake : ((va.take nx).map Real.exp).length = nx := by
      rw [List.length_map, List.length_take, hvaa]
      omega
    have hdiag : (List.range nd).map
        (fun i => matEntry (diagTril nd
          (fun i => ((va.drop nx).map Real.exp).getD i 0)) i i) =
        (va.drop nx).map Real.exp := by
      rw [List.map_congr_left (fun x hx =>
        matEntry_diagTril _ _ _ (List.mem_range.mp hx))]
      refine List.ext_getElem ?_ ?_
      · rw [List.length_map, List.length_range, List.length_map, hdl]
      · intro i hi1 hi2
        rw [List.getElem_map, List.getElem_range,
          List.getD_eq_getElem _ _ hi2]
    refine ⟨⟨nd, nx, iso, some true,
        (va.take nx).map Real.exp ++
          diagTril nd (fun i => ((va.drop nx).map Real.exp).getD i 0)⟩,
      rkSetVector_axis nd nx iso p va hne1 haia hl1 hdl2, ?_, ?_⟩
    · rw [rkVector_axis_get nd nx iso _ hne1 haia]
      rw [List.take_left' htake, List.drop_left' htake, hdiag,
        ← List.map_append, List.take_append_drop]
      exact map_log_map_exp va
    · show (0 : ℝ) ∈ (va.take nx).map Real.exp ++
        diagTril nd (fun i => ((va.drop nx).map Real.exp).getD i 0)
      exact List.mem_append_right _ (zero_mem_diagTril _ _ ha2a)

/-- 1-D radial kernel for the C6 witness. -/
def c6r1 : RadialPars := ⟨1, 0, none, none, [2]⟩

/-- Full-metric 2-D radial kernel for the C6 witness. -/
def c6rf : RadialPars := ⟨2, 0, none, none, [1, 1, 1]⟩

/-- Axis-aligned 2-D radial kernel for the C6 witness. -/
def c6ra : RadialPars := ⟨2, 0, none, some true, [1, 0, 1]⟩

/-- Witness for C6 (amended) at `ConstantKernel(2)`, a 1-D radial
kernel, a full-metric 2-D kernel, the isotropic `rkIso`, and an
axis-aligned 2-D kernel. -/
theorem C6_log_param_roundtrip_witness :
    ((Kern.constK 1 [2] true).vec =
        (Kern.constK 1 [2] true).pars.map Real.log ∧
      ((Kern.constK 1 [2] true).setVector [0]).vec = [0] ∧
      ∀ r ∈ ((Kern.constK 1 [2] true).setVector [0]).pars, 0 < r) ∧
    (rkVector c6r1 = c6r1.pars.map Real.log ∧
      ∃ q, rkSetVector c6r1 [0] = .ok q ∧ rkVector q = [0] ∧
        ∀ r ∈ q.pars, 0 < r) ∧
    (rkVector c6rf = c6rf.pars.map Real.log ∧
      ∃ q, rkSetVector c6rf [0, 0, 0] = .ok q ∧ rkVector q = [0, 0, 0] ∧
        ∀ r ∈ q.pars, 0 < r) ∧
    (∃ q, rkSetVector rkIso [0] = .ok q ∧ rkVector q = [0] ∧
      (0 : ℝ) ∈ q.pars) ∧
    (∃ q, rkSetVector c6ra [0, 0] = .ok q ∧ rkVector q = [0, 0] ∧
      (0 : ℝ) ∈ q.pars) :=
  C6_log_param_roundtrip (Kern.constK 1 [2] true) [0]
    c6r1 [0] rfl
    c6rf [0, 0, 0] (by decide) rfl rfl (by decide)
    rkIso [0] (by decide) rfl (by decide)
    c6ra [0, 0] (by decide) rfl rfl (by decide)

/-! ### The GP engine (`src/george/basic.py`)

Stateful code is embedded as step relations on an explicit state type;
the scipy calls (`cholesky`, `cho_solve`) are external collaborators
and enter through their documented contracts (`IsCholesky`,
`choSolve`), and `np.argsort` on 1-D input enters as `Tuple.sort`.  The
external standard-normal draws of `sample` are a parameter. -/

open Matrix

/-- `TINY`, the fixed default `yerr` of `compute` (`basic.py`). -/
def TINY : ℝ := 1.25e-12

/-- Errors surfaced by the engine: `RuntimeError` (model never
computed), `ValueError` (dimension mismatch), `LinAlgError`
(factorization failure). -/
inductive GPError : Type where
  | runtimeError
  | valueError
  | linAlgError
  deriving DecidableEq

/-- The data stored by a successful `compute`: sorted coordinates
`_x`, per-point noise `_yerr`, the sorting permutation `inds`, the
upper Cholesky factor, and the normalization constant `_const`. -/
structure GPData (n : ℕ) where
  x : Fin n → Point
  yerr : Fin n → ℝ
  inds : Equiv.Perm (Fin n)
  factor : Matrix (Fin n) (Fin n) ℝ
  const : ℝ

/-- The engine state: the kernel reference (shared, with its dirty
flag), the mean function, the `_computed` flag, and the data stored by
`compute` (absent on a fresh engine). -/
structure GPState (n : ℕ) where
  kernel : Kern
  mean : Point → ℝ
  computedFlag : Bool
  data : Option (GPData n)

/-- The `computed` property:
`self._computed and not self.kernel.dirty`. -/
def GP.computed {n : ℕ} (gp : GPState n) : Bool :=
  gp.computedFlag && ! gp.kernel.dirty

/-- The regularized covariance matrix of `_do_compute`:
`K = kernel(x, x)` followed by
`K[np.diag_indices_from(K)] += yerr ** 2`. -/
def buildK {n : ℕ} (k : Kern) (x : Fin n → Point) (yerr : Fin n → ℝ) :
    Matrix (Fin n) (Fin n) ℝ :=
  fun i j => k.eval x x i j + if i = j then yerr i ^ 2 else 0

/-- The contract of `scipy.linalg.cholesky(K, lower=False)`: an upper
triangular factor with positive diagonal satisfying `Rᵀ·R = K`. -/
def IsCholesky {n : ℕ} (K R : Matrix (Fin n) (Fin n) ℝ) : Prop :=
  (∀ i j : Fin n, (j : ℕ) < (i : ℕ) → R i j = 0) ∧
  (∀ i : Fin n, 0 < R i i) ∧ Rᵀ * R = K

/-- `cholesky(K)` succeeds exactly when such a factor exists
(otherwise it raises `LinAlgError`). -/
def CholeskyOk {n : ℕ} (K : Matrix (Fin n) (Fin n) ℝ) : Prop :=
  ∃ R, IsCholesky K R

/-- The contract of `cho_solve((factor, False), b)`: the solution of
`(Rᵀ·R)·x = b` through the stored factor. -/
def choSolve {n : ℕ} (R : Matrix (Fin n) (Fin n) ℝ) (b : Fin n → ℝ) :
    Fin n → ℝ :=
  (Rᵀ * R)⁻¹ *ᵥ b

/-- `cho_solve` against a matrix right-hand side. -/
def choSolveM {n m : ℕ} (R : Matrix (Fin n) (Fin n) ℝ)
    (B : Matrix (Fin n) (Fin m) ℝ) : Matrix (Fin n) (Fin m) ℝ :=
  (Rᵀ * R)⁻¹ * B

/-- The constant stored by `_do_compute`:
`-(np.sum(np.log(np.diag(factor))) + 0.5*np.log(2*np.pi)*len(x))`. -/
def lnConst {n : ℕ} (R : Matrix (Fin n) (Fin n) ℝ) : ℝ :=
  -((∑ i, Real.log (R i i)) + (0.5 * Real.log (2 * Real.pi)) * n)

/-- The dimension check of `parse_samples` against the kernel: every
stored coordinate row has `ndim` entries. -/
def DimOk {n : ℕ} (k : Kern) (x : Fin n → Point) : Prop :=
  ∀ i, (x i).length = k.ndim

/-- One execution of `GP.recompute(quiet)`.  `.ok (true, gp')` is the
successful `True` return; `.ok (false, gp')` the quiet `False` return;
`.error e` a raised exception.  Already-computed engines no-op.  A
fresh engine (no stored `_x`/`_yerr`) raises `RuntimeError` regardless
of `quiet`.  Otherwise the inner `compute(self._x, self._yerr,
sort=False)` either fails the dimension check (before mutating state),
fails in `cholesky` (after `inds` was reset to `arange`, keeping the
stale factor), or succeeds, refactoring the current kernel's matrix
and restoring the original `inds`. -/
inductive Recompute {n : ℕ} (gp : GPState n) (quiet : Bool) :
    Except GPError (Bool × GPState n) → Prop where
  | done (h : GP.computed gp = true) : Recompute gp quiet (.ok (true, gp))
  | fresh (h : GP.computed gp = false) (hd : gp.data = none) :
      Recompute gp quiet (.error .runtimeError)
  | dimErrQuiet (d : GPData n) (h : GP.computed gp = false)
      (hd : gp.data = some d) (hdim : ¬ DimOk gp.kernel d.x)
      (hq : quiet = true) : Recompute gp quiet (.ok (false, gp))
  | dimErrRaise (d : GPData n) (h : GP.computed gp = false)
      (hd : gp.data = some d) (hdim : ¬ DimOk gp.kernel d.x)
      (hq : quiet = false) : Recompute gp quiet (.error .valueError)
  | cholFailQuiet (d : GPData n) (h : GP.computed gp = false)
      (hd : gp.data = some d) (hdim : DimOk gp.kernel d.x)
      (hchol : ¬ CholeskyOk (buildK gp.kernel d.x d.yerr))
      (hq : quiet = true) :
      Recompute gp quiet
        (.ok (false, { gp with data := some { d with inds := 1 } }))
  | cholFailRaise (d : GPData n) (h : GP.computed gp = false)
      (hd : gp.data = some d) (hdim : DimOk gp.kernel d.x)
      (hchol : ¬ CholeskyOk (buildK gp.kernel d.x d.yerr))
      (hq : quiet = false) : Recompute gp quiet (.error .linAlgError)
  | ok (d : GPData n) (R : Matrix (Fin n) (Fin n) ℝ)
      (h : GP.computed gp = false) (hd : gp.data = some d)
      (hdim : DimOk gp.kernel d.x)
      (hchol : IsCholesky (buildK gp.kernel d.x d.yerr) R) :
      Recompute gp quiet (.ok (true,
        { kernel := gp.kernel.setDirty false
          mean := gp.mean
          computedFlag := true
          data := some ⟨d.x, d.yerr, d.inds, R, lnConst R⟩ }))

/-- `np.isfinite` on the extended reals. -/
def isFiniteE (l : EReal) : Prop := l ≠ ⊤ ∧ l ≠ ⊥

/-- The guard `ll if np.isfinite(ll) else -np.inf` of `lnlikelihood`. -/
def finGuard (l : EReal) : EReal :=
  letI := Classical.propDecidable (isFiniteE l)
  if isFiniteE l then l else ⊥

/-- `_compute_lnlike(r)`:
`self._const - 0.5*np.dot(r.T, cho_solve(self._factor, r))`. -/
def computeLnlike {n : ℕ} (d : GPData n) (r : Fin n → ℝ) : ℝ :=
  d.const - 0.5 * (r ⬝ᵥ choSolve d.factor r)

/-- The sorted residual
`r = self._check_dimensions(y)[self.inds] - self.mean(self._x)`. -/
def residual {n : ℕ} (gp : GPState n) (d : GPData n) (y : Fin n → ℝ) :
    Fin n → ℝ :=
  fun i => y (d.inds i) - gp.mean (d.x i)

/-- One execution of `GP.lnlikelihood(y, quiet)`. -/
inductive LnLike {n : ℕ} (gp : GPState n) (y : Fin n → ℝ) (quiet : Bool) :
    Except GPError EReal → Prop where
  | recompFalse (gp1 : GPState n)
      (h : Recompute gp quiet (.ok (false, gp1))) : LnLike gp y quiet (.ok ⊥)
  | recompErr (e : GPError) (h : Recompute gp quiet (.error e)) :
      LnLike gp y quiet (.error e)
  | val (gp1 : GPState n) (d : GPData n)
      (h : Recompute gp quiet (.ok (true, gp1))) (hd : gp1.data = some d) :
      LnLike gp y quiet
        (.ok (finGuard ↑(computeLnlike d (residual gp1 d y))))

/-- Boolean-mask selection `array[mask]`. -/
def maskSel {α : Type _} : List Bool → List α → List α
  | b :: bs, a :: l => if b then a :: maskSel bs l else maskSel bs l
  | _, _ => []

/-- One summand of `grad_lnlikelihood`:
`0.5*(αᵀ·Kg·α − tr(cho_solve(factor, Kg)))`. -/
def gradTerm {n : ℕ} (d : GPData n) (alpha : Fin n → ℝ)
    (Kg : Matrix (Fin n) (Fin n) ℝ) : ℝ :=
  0.5 * (alpha ⬝ᵥ (Kg *ᵥ alpha) - Matrix.trace (choSolveM d.factor Kg))

/-- One execution of `GP.grad_lnlikelihood(y, dims, quiet)`; `dims`
defaults to the all-ones mask of length `len(kernel)`, the quiet
failure returns a zero vector of the mask's length. -/
inductive GradLL {n : ℕ} (gp : GPState n) (y : Fin n → ℝ)
    (dims : Option (List Bool)) (quiet : Bool) :
    Except GPError (List ℝ) → Prop where
  | recompFalse (gp1 : GPState n)
      (h : Recompute gp quiet (.ok (false, gp1))) :
      GradLL gp y dims quiet (.ok (List.replicate
        (dims.getD (List.replicate gp.kernel.klen true)).length 0))
  | recompErr (e : GPError) (h : Recompute gp quiet (.error e)) :
      GradLL gp y dims quiet (.error e)
  | val (gp1 : GPState n) (d : GPData n)
      (h : Recompute gp quiet (.ok (true, gp1))) (hd : gp1.data = some d) :
      GradLL gp y dims quiet (.ok
        ((maskSel (dims.getD (List.replicate gp.kernel.klen true))
            (gp1.kernel.grad d.x d.x)).map
          (gradTerm d (choSolve d.factor (residual gp1 d y)))))

/-- 1-D test coordinates as points. -/
def ptOf {m : ℕ} (t : Fin m → ℚ) : Fin m → Point := fun i => [t i]

/-- The pair `(mu, cov)` computed by a successful `GP.predict(y, t)`. -/
def predVal {n m : ℕ} (gp1 : GPState n) (d : GPData n) (y : Fin n → ℝ)
    (t : Fin m → ℚ) : (Fin m → ℝ) × Matrix (Fin m) (Fin m) ℝ :=
  (fun i => (gp1.kernel.eval (ptOf t) d.x *ᵥ
      choSolve d.factor (residual gp1 d y)) i + gp1.mean (ptOf t i),
   gp1.kernel.eval (ptOf t) (ptOf t) -
     gp1.kernel.eval (ptOf t) d.x *
       choSolveM d.factor (gp1.kernel.eval (ptOf t) d.x)ᵀ)

/-- One execution of `GP.predict(y, t)` with 1-D test coordinates
(`recompute` runs with `quiet=False`; `parse_samples(t, False)` then
checks the kernel dimension). -/
inductive Predict {n m : ℕ} (gp : GPState n) (y : Fin n → ℝ)
    (t : Fin m → ℚ) :
    Except GPError ((Fin m → ℝ) × Matrix (Fin m) (Fin m) ℝ) → Prop where
  | recompErr (e : GPError) (h : Recompute gp false (.error e)) :
      Predict gp y t (.error e)
  | dimErr (gp1 : GPState n) (h : Recompute gp false (.ok (true, gp1)))
      (hnd : gp1.kernel.ndim ≠ 1) : Predict gp y t (.error .valueError)
  | val (gp1 : GPState n) (d : GPData n)
      (h : Recompute gp false (.ok (true, gp1))) (hd : gp1.data = some d)
      (hnd : gp1.kernel.ndim = 1) :
      Predict gp y t (.ok (predVal gp1 d y t))

/-- The prior sample row `np.dot(randn(1, n), factor) + mean(x)` for
external draws `u` (`GP.sample` with `t=None`, `size=1`). -/
def priorSample {n : ℕ} (gp1 : GPState n) (d : GPData n) (u : Fin n → ℝ) :
    Fin n → ℝ :=
  fun j => (u ⬝ᵥ fun i => d.factor i j) + gp1.mean (d.x j)

/-- `results[:, inds] = samples` for the stored permutation `inds`:
the sample for sorted position `j` lands at original position
`inds j`. -/
def permScatter {n : ℕ} (inds : Equiv.Perm (Fin n)) (s : Fin n → ℝ) :
    Fin n → ℝ :=
  fun k => s (inds.symm k)

/-- One execution of `GP.sample()` without coordinates: `recompute()`
(loud), draw, un-permute. -/
inductive SampleNoT {n : ℕ} (gp : GPState n) (u : Fin n → ℝ) :
    Except GPError (Fin n → ℝ) → Prop where
  | recompErr (e : GPError) (h : Recompute gp false (.error e)) :
      SampleNoT gp u (.error e)
  | val (gp1 : GPState n) (d : GPData n)
      (h : Recompute gp false (.ok (true, gp1))) (hd : gp1.data = some d) :
      SampleNoT gp u (.ok (permScatter d.inds (priorSample gp1 d u)))

/-- A successful `GP.compute(t, yerr, sort)` on 1-D input with a
scalar `yerr`: `parse_samples` sorts with `np.argsort` (`Tuple.sort`)
when asked, checks the kernel dimension, `_yerr` is the constant
vector, and `_do_compute` factors the regularized covariance, stores
the constant, marks the engine computed and clears the dirty flag. -/
inductive Compute1D {n : ℕ} (gp : GPState n) (t : Fin n → ℚ) (yerr : ℝ)
    (sort : Bool) : GPState n → Prop where
  | mk (σ : Equiv.Perm (Fin n)) (R : Matrix (Fin n) (Fin n) ℝ)
      (hσ : σ = if sort then Tuple.sort t else 1)
      (hnd : gp.kernel.ndim = 1)
      (hchol : IsCholesky
        (buildK gp.kernel (fun i => [t (σ i)]) (fun _ => yerr)) R) :
      Compute1D gp t yerr sort
        { kernel := gp.kernel.setDirty false
          mean := gp.mean
          computedFlag := true
          data := some ⟨fun i => [t (σ i)], fun _ => yerr, σ, R, lnConst R⟩ }

/-- `setDirty` overwrites exactly the node's dirty flag. -/
theorem setDirty_dirty (k : Kern) (b : Bool) : (k.setDirty b).dirty = b := by
  cases k <;> rfl

/-- `setPars` always sets the node's dirty flag. -/
theorem setPars_dirty (k : Kern) (v : List ℝ) :
    (k.setPars v).dirty = true := by
  cases k <;> rfl

/-- `setVector` always sets the node's dirty flag. -/
theorem setVector_dirty (k : Kern) (v : List ℝ) :
    (k.setVector v).dirty = true := by
  cases k <;> rfl

/-- The guard keeps finite values. -/
theorem finGuard_coe (x : ℝ) : finGuard ↑x = ↑x := by
  unfold finGuard
  rw [if_pos ⟨EReal.coe_ne_top x, EReal.coe_ne_bot x⟩]

/-- `recompute` cannot both return a quiet `False` and succeed. -/
theorem recompute_false_not_true {n : ℕ} (gp : GPState n) (q : Bool)
    (g1 g2 : GPState n) (h1 : Recompute gp q (.ok (false, g1)))
    (h2 : Recompute gp q (.ok (true, g2))) : False := by
  cases h1 with
  | dimErrQuiet d h hd hdim hq =>
      cases h2 with
      | done h2c =>
          rw [h] at h2c
          exact Bool.noConfusion h2c
      | ok d2 R h2c hd2 hdim2 hchol =>
          rw [hd] at hd2
          cases hd2
          exact hdim hdim2
  | cholFailQuiet d h hd hdim hchol hq =>
      cases h2 with
      | done h2c =>
          rw [h] at h2c
          exact Bool.noConfusion h2c
      | ok d2 R h2c hd2 hdim2 hchol2 =>
          rw [hd] at hd2
          cases hd2
          exact hchol ⟨R, hchol2⟩

/-- `recompute` cannot both return a quiet `False` and raise. -/
theorem recompute_false_not_error {n : ℕ} (gp : GPState n) (q : Bool)
    (g1 : GPState n) (e : GPError) (h1 : Recompute gp q (.ok (false, g1)))
    (h2 : Recompute gp q (.error e)) : False := by
  cases h1 with
  | dimErrQuiet d h hd hdim hq =>
      cases h2 with
      | fresh h2c hd2 =>
          rw [hd] at hd2
          cases hd2
      | dimErrRaise d2 h2c hd2 hdim2 hq2 =>
          rw [hq] at hq2
          exact Bool.noConfusion hq2
      | cholFailRaise d2 h2c hd2 hdim2 hchol2 hq2 =>
          rw [hq] at hq2
          exact Bool.noConfusion hq2
  | cholFailQuiet d h hd hdim hchol hq =>
      cases h2 with
      | fresh h2c hd2 =>
          rw [hd] at hd2
          cases hd2
      | dimErrRaise d2 h2c hd2 hdim2 hq2 =>
          rw [hq] at hq2
          exact Bool.noConfusion hq2
      | cholFailRaise d2 h2c hd2 hdim2 hchol2 hq2 =>
          rw [hq] at hq2
          exact Bool.noConfusion hq2

/-- A successful `recompute` on an already-computed engine no-ops. -/
theorem recompute_of_computed {n : ℕ} (gp : GPState n) (q : Bool)
    (g1 : GPState n) (hc : GP.computed gp = true)
    (h : Recompute gp q (.ok (true, g1))) : g1 = gp := by
  cases h with
  | done h2 => rfl
  | ok d R h2 hd hdim hchol =>
      rw [hc] at h2
      exact Bool.noConfusion h2

/-- A successful `recompute` on a non-computed engine freshly factors
the current kernel's regularized covariance and stores its constant,
preserving coordinates, noise and permutation. -/
theorem recompute_fresh_factor {n : ℕ} (gp : GPState n) (q : Bool)
    (g1 : GPState n) (hc : GP.computed gp = false)
    (h : Recompute gp q (.ok (true, g1))) :
    ∃ d d', gp.data = some d ∧ g1.data = some d' ∧ d'.x = d.x ∧
      d'.yerr = d.yerr ∧ d'.inds = d.inds ∧
      g1.kernel = gp.kernel.setDirty false ∧ g1.computedFlag = true ∧
      g1.mean = gp.mean ∧
      IsCholesky (buildK gp.kernel d.x d.yerr) d'.factor ∧
      d'.const = lnConst d'.factor := by
  cases h with
  | done h2 =>
      rw [hc] at h2
      exact Bool.noConfusion h2
  | ok d R h2 hd hdim hchol =>
      exact ⟨d, ⟨d.x, d.yerr, d.inds, R, lnConst R⟩, hd, rfl, rfl, rfl, rfl,
        rfl, rfl, rfl, hchol, rfl⟩

/-- C1: on an engine whose factorization is current, `lnlikelihood(y)`
returns `const − 0.5·rᵀ·K⁻¹·r`, where `r` is the sorted observations
minus the mean at the stored coordinates, `K` is the regularized
covariance matrix that was factored, and the stored constant is
`−(Σ log diag(factor) + 0.5·n·log 2π)`. -/
theorem C1_lnlikelihood_formula {n : ℕ} (gp : GPState n) (d : GPData n)
    (y : Fin n → ℝ) (quiet : Bool) (res : Except GPError EReal)
    (hc : GP.computed gp = true) (hd : gp.data = some d)
    (hfac : IsCholesky (buildK gp.kernel d.x d.yerr) d.factor)
    (hconst : d.const = lnConst d.factor) (hll : LnLike gp y quiet res) :
    res = .ok ↑(lnConst d.factor - 0.5 * (residual gp d y ⬝ᵥ
      ((buildK gp.kernel d.x d.yerr)⁻¹ *ᵥ residual gp d y))) ∧
    lnConst d.factor = -((∑ i, Real.log (d.factor i i)) +
      (0.5 * Real.log (2 * Real.pi)) * n) := by
  refine ⟨?_, rfl⟩
  cases hll with
  | recompFalse gp1 h =>
      exact (recompute_false_not_true gp quiet gp1 gp h
        (Recompute.done hc)).elim
  | recompErr e h =>
      cases h with
      | fresh h2 hd2 =>
          rw [hc] at h2
          exact Bool.noConfusion h2
      | dimErrRaise d2 h2 hd2 hdim hq =>
          rw [hc] at h2
          exact Bool.noConfusion h2
      | cholFailRaise d2 h2 hd2 hdim hchol hq =>
          rw [hc] at h2
          exact Bool.noConfusion h2
  | val gp1 d2 h hd2 =>
      have hgp1 : gp1 = gp := recompute_of_computed gp quiet gp1 hc h
      subst hgp1
      rw [hd] at hd2
      cases hd2
      rw [finGuard_coe]
      unfold computeLnlike choSolve
      rw [hfac.2.2, hconst]

/-- Witness data for the engine claims: one training point at the
origin with zero noise and unit factor. -/
def dW : GPData 1 :=
  { x := fun _ => [0]
    yerr := fun _ => 0
    inds := 1
    factor := fun _ _ => 1
    const := lnConst ((fun _ _ => 1 : Matrix (Fin 1) (Fin 1) ℝ)) }

/-- Witness engine: `ConstantKernel(1)` (not dirty), zero mean,
computed, with `dW` stored. -/
def gpW : GPState 1 :=
  { kernel := .constK 1 [1] false
    mean := fun _ => 0
    computedFlag := true
    data := some dW }

/-- The unit factor is a Cholesky factor of `gpW`'s covariance. -/
theorem gpW_chol : IsCholesky (buildK gpW.kernel dW.x dW.yerr) dW.factor := by
  refine ⟨?_, ?_, ?_⟩
  · intro i j hij
    have hi := i.isLt
    have hj := j.isLt
    omega
  · intro i
    show (0 : ℝ) < 1
    norm_num
  · funext i j
    have hi : i = 0 := Subsingleton.elim i 0
    have hj : j = 0 := Subsingleton.elim j 0
    subst hi
    subst hj
    rw [Matrix.mul_apply]
    show ∑ k : Fin 1, dW.factorᵀ 0 k * dW.factor k 0 = _
    simp [dW, gpW, buildK, Kern.eval, Matrix.transpose_apply,
      Fin.sum_univ_one]

/-- Witness for C1 at the concrete computed engine `gpW` with
observations `y = 2`. -/
theorem C1_lnlikelihood_formula_witness :
    (Except.ok (finGuard ↑(computeLnlike dW (residual gpW dW fun _ => 2))) :
      Except GPError EReal) =
      .ok ↑(lnConst dW.factor - 0.5 * (residual gpW dW (fun _ => 2) ⬝ᵥ
        ((buildK gpW.kernel dW.x dW.yerr)⁻¹ *ᵥ
          residual gpW dW (fun _ => 2)))) ∧
    lnConst dW.factor = -((∑ i, Real.log (dW.factor i i)) +
      (0.5 * Real.log (2 * Real.pi)) * ((1 : ℕ) : ℝ)) :=
  C1_lnlikelihood_formula gpW dW (fun _ => 2) false _ rfl rfl gpW_chol rfl
    (LnLike.val gpW dW (Recompute.done rfl) rfl)

/-- C7: with `quiet` set, `lnlikelihood` returns `-inf` when the model
is invalid (the quiet recompute reports failure), and the final guard
coerces every non-finite value to `-inf`. -/
theorem C7_lnlikelihood_neg_inf {n : ℕ} (gp : GPState n) (y : Fin n → ℝ)
    (res : Except GPError EReal) (gp1 : GPState n)
    (hfail : Recompute gp true (.ok (false, gp1)))
    (hll : LnLike gp y true res) :
    res = .ok ⊥ ∧ ∀ l : EReal, ¬ isFiniteE l → finGuard l = ⊥ := by
  refine ⟨?_, ?_⟩
  · cases hll with
    | recompFalse gp2 h => rfl
    | recompErr e h =>
        exact (recompute_false_not_error gp true gp1 e hfail h).elim
    | val gp2 d h hd =>
        exact (recompute_false_not_true gp true gp1 gp2 hfail h).elim
  · intro l hl
    unfold finGuard
    rw [if_neg hl]

/-- Data whose covariance is the zero matrix (so `cholesky` fails). -/
def dBad : GPData 1 :=
  { x := fun _ => [0]
    yerr := fun _ => 0
    inds := 1
    factor := fun _ _ => 1
    const := 0 }

/-- Engine with `ConstantKernel(0)` marked dirty: its regularized
covariance `[[0]]` has no Cholesky factor. -/
def gpBad : GPState 1 :=
  { kernel := .constK 1 [0] true
    mean := fun _ => 0
    computedFlag := true
    data := some dBad }

/-- The zero covariance of `gpBad` admits no Cholesky factor. -/
theorem gpBad_not_chol :
    ¬ CholeskyOk (buildK gpBad.kernel dBad.x dBad.yerr) := by
  rintro ⟨R, hup, hpos, heq⟩
  have h00 : (Rᵀ * R) 0 0 = 0 := by
    rw [heq]
    show buildK gpBad.kernel dBad.x dBad.yerr 0 0 = 0
    simp [gpBad, dBad, buildK, Kern.eval]
  rw [Matrix.mul_apply, Fin.sum_univ_one, Matrix.transpose_apply] at h00
  have hp := hpos 0
  nlinarith

/-- Witness for C7 at the dirty engine `gpBad` whose refactorization
fails quietly, and at the non-finite value `⊤`. -/
theorem C7_lnlikelihood_neg_inf_witness :
    (Except.ok (⊥ : EReal) : Except GPError EReal) = .ok ⊥ ∧
    ∀ l : EReal, ¬ isFiniteE l → finGuard l = ⊥ :=
  C7_lnlikelihood_neg_inf gpBad (fun _ => 0) _ _
    (Recompute.cholFailQuiet dBad rfl rfl (fun i => rfl) gpBad_not_chol rfl)
    (LnLike.recompFalse _
      (Recompute.cholFailQuiet dBad rfl rfl (fun i => rfl) gpBad_not_chol rfl))

/-- C9: on a fresh engine (`compute` never called, so no stored
coordinates or noise), `recompute`, `lnlikelihood` and
`grad_lnlikelihood` raise `RuntimeError` even with `quiet=True`: the
quiet mode only suppresses failures arising during re-factorization. -/
theorem C9_never_computed_runtime_error {n : ℕ} (gp : GPState n)
    (y : Fin n → ℝ) (hd : gp.data = none) (hc : gp.computedFlag = false) :
    (∀ res, Recompute gp true res → res = .error .runtimeError) ∧
    (∀ res, LnLike gp y true res → res = .error .runtimeError) ∧
    (∀ res, GradLL gp y none true res → res = .error .runtimeError) := by
  have hcc : GP.computed gp = false := by
    unfold GP.computed
    rw [hc]
    rfl
  have hrec : ∀ res, Recompute gp true res → res = .error .runtimeError := by
    intro res h
    cases h with
    | done h2 =>
        rw [hcc] at h2
        exact Bool.noConfusion h2
    | fresh h2 hd2 => rfl
    | dimErrQuiet d h2 hd2 hdim hq =>
        rw [hd] at hd2
        cases hd2
    | dimErrRaise d h2 hd2 hdim hq =>
        rw [hd] at hd2
        cases hd2
    | cholFailQuiet d h2 hd2 hdim hchol hq =>
        rw [hd] at hd2
        cases hd2
    | cholFailRaise d h2 hd2 hdim hchol hq =>
        rw [hd] at hd2
        cases hd2
    | ok d R h2 hd2 hdim hchol =>
        rw [hd] at hd2
        cases hd2
  refine ⟨hrec, ?_, ?_⟩
  · intro res h
    cases h with
    | recompFalse gp1 h2 => exact Except.noConfusion (hrec _ h2)
    | recompErr e h2 =>
        injection hrec _ h2 with h3
        rw [h3]
    | val gp1 d h2 hd2 => exact Except.noConfusion (hrec _ h2)
  · intro res h
    cases h with
    | recompFalse gp1 h2 => exact Except.noConfusion (hrec _ h2)
    | recompErr e h2 =>
        injection hrec _ h2 with h3
        rw [h3]
    | val gp1 d h2 hd2 => exact Except.noConfusion (hrec _ h2)

/-- A fresh engine that has never been computed. -/
def gpF : GPState 1 :=
  { kernel := .constK 1 [1] true
    mean := fun _ => 0
    computedFlag := false
    data := none }

/-- Witness for C9 at the fresh engine `gpF`. -/
theorem C9_never_computed_runtime_error_witness :
    ((Except.error .runtimeError : Except GPError (Bool × GPState 1)) =
      .error .runtimeError) ∧
    ((Except.error .runtimeError : Except GPError EReal) =
      .error .runtimeError) ∧
    ((Except.error .runtimeError : Except GPError (List ℝ)) =
      .error .runtimeError) := by
  have h := C9_never_computed_runtime_error gpF (fun _ => 0) rfl rfl
  exact ⟨h.1 _ (Recompute.fresh rfl rfl),
    h.2.1 _ (LnLike.recompErr _ (Recompute.fresh rfl rfl)),
    h.2.2 _ (GradLL.recompErr _ (Recompute.fresh rfl rfl))⟩

/-- C2: every `pars`/`vector` assignment sets the assigned node's
dirty flag, on leaves and on `Sum`/`Product` composites alike; the
`computed` property is `_computed and not kernel.dirty`, hence `false`
after any mutation; and every successful recompute performed by
`lnlikelihood`, `grad_lnlikelihood`, `predict` or `sample` freshly
factors the current kernel's regularized covariance (the stale
factorization is never reused), every such call routing its value
through that recompute. -/
theorem C2_dirty_flag_invalidation {n m : ℕ} (k : Kern) (v : List ℝ)
    (gp : GPState n) (y u : Fin n → ℝ) (t : Fin m → ℚ) (quiet : Bool)
    (hdirty : gp.kernel.dirty = true) :
    (k.setPars v).dirty = true ∧ (k.setVector v).dirty = true ∧
    (∀ gp2 : GPState n, gp2.kernel.dirty = true →
      GP.computed gp2 = false) ∧
    GP.computed { gp with kernel := gp.kernel.setPars v } = false ∧
    (∀ gp1, Recompute gp quiet (.ok (true, gp1)) →
      ∃ d dn, gp.data = some d ∧ gp1.data = some dn ∧ dn.x = d.x ∧
        dn.yerr = d.yerr ∧ dn.inds = d.inds ∧
        gp1.kernel = gp.kernel.setDirty false ∧ gp1.computedFlag = true ∧
        gp1.mean = gp.mean ∧
        IsCholesky (buildK gp.kernel d.x d.yerr) dn.factor ∧
        dn.const = lnConst dn.factor) ∧
    (∀ res, LnLike gp y quiet res → res = .ok ⊥ ∨
      (∃ e, res = .error e) ∨
      ∃ gp1 dn, Recompute gp quiet (.ok (true, gp1)) ∧
        gp1.data = some dn ∧
        res = .ok (finGuard ↑(computeLnlike dn (residual gp1 dn y)))) ∧
    (∀ dims res, GradLL gp y dims quiet res →
      res = .ok (List.replicate
        (dims.getD (List.replicate gp.kernel.klen true)).length 0) ∨
      (∃ e, res = .error e) ∨
      ∃ gp1 dn, Recompute gp quiet (.ok (true, gp1)) ∧
        gp1.data = some dn ∧
        res = .ok ((maskSel (dims.getD (List.replicate gp.kernel.klen true))
            (gp1.kernel.grad dn.x dn.x)).map
          (gradTerm dn (choSolve dn.factor (residual gp1 dn y))))) ∧
    (∀ res, Predict gp y t res → (∃ e, res = .error e) ∨
      ∃ gp1 dn, Recompute gp false (.ok (true, gp1)) ∧
        gp1.data = some dn ∧ res = .ok (predVal gp1 dn y t)) ∧
    (∀ res, SampleNoT gp u res → (∃ e, res = .error e) ∨
      ∃ gp1 dn, Recompute gp false (.ok (true, gp1)) ∧
        gp1.data = some dn ∧
        res = .ok (permScatter dn.inds (priorSample gp1 dn u))) := by
  have hcf : ∀ gp2 : GPState n, gp2.kernel.dirty = true →
      GP.computed gp2 = false := by
    intro gp2 h2
    unfold GP.computed
    rw [h2]
    simp
  refine ⟨setPars_dirty k v, setVector_dirty k v, hcf, ?_, ?_, ?_, ?_, ?_, ?_⟩
  · exact hcf _ (setPars_dirty gp.kernel v)
  · intro gp1 h
    exact recompute_fresh_factor gp quiet gp1 (hcf gp hdirty) h
  · intro res h
    cases h with
    | recompFalse gp1 h2 => exact Or.inl rfl
    | recompErr e h2 => exact Or.inr (Or.inl ⟨e, rfl⟩)
    | val gp1 d h2 hd2 => exact Or.inr (Or.inr ⟨gp1, d, h2, hd2, rfl⟩)
  · intro dims res h
    cases h with
    | recompFalse gp1 h2 => exact Or.inl rfl
    | recompErr e h2 => exact Or.inr (Or.inl ⟨e, rfl⟩)
    | val gp1 d h2 hd2 => exact Or.inr (Or.inr ⟨gp1, d, h2, hd2, rfl⟩)
  · intro res h
    cases h with
    | recompErr e h2 => exact Or.inl ⟨e, rfl⟩
    | dimErr gp1 h2 hnd => exact Or.inl ⟨.valueError, rfl⟩
    | val gp1 d h2 hd2 hnd => exact Or.inr ⟨gp1, d, h2, hd2, rfl⟩
  · intro res h
    cases h with
    | recompErr e h2 => exact Or.inl ⟨e, rfl⟩
    | val gp1 d h2 hd2 => exact Or.inr ⟨gp1, d, h2, hd2, rfl⟩

/-- Computed engine with a dirty `ConstantKernel(1)` for the C2
witness. -/
def gpW2 : GPState 1 :=
  { kernel := .constK 1 [1] true
    mean := fun _ => 0
    computedFlag := true
    data := some dW }

/-- Witness for C2 at a dirty one-point engine. -/
theorem C2_dirty_flag_invalidation_witness :
    ((Kern.constK 1 [2] true).setPars [5]).dirty = true ∧
    ((Kern.constK 1 [2] true).setVector [5]).dirty = true ∧
    (∀ gp2 : GPState 1, gp2.kernel.dirty = true →
      GP.computed gp2 = false) ∧
    GP.computed { gpW2 with kernel := gpW2.kernel.setPars [5] } = false ∧
    (∀ gp1, Recompute gpW2 false (.ok (true, gp1)) →
      ∃ d dn, gpW2.data = some d ∧ gp1.data = some dn ∧ dn.x = d.x ∧
        dn.yerr = d.yerr ∧ dn.inds = d.inds ∧
        gp1.kernel = gpW2.kernel.setDirty false ∧
        gp1.computedFlag = true ∧ gp1.mean = gpW2.mean ∧
        IsCholesky (buildK gpW2.kernel d.x d.yerr) dn.factor ∧
        dn.const = lnConst dn.factor) ∧
    (∀ res, LnLike gpW2 (fun _ => 2) false res → res = .ok ⊥ ∨
      (∃ e, res = .error e) ∨
      ∃ gp1 dn, Recompute gpW2 false (.ok (true, gp1)) ∧
        gp1.data = some dn ∧
        res = .ok (finGuard
          ↑(computeLnlike dn (residual gp1 dn fun _ => 2)))) ∧
    (∀ dims res, GradLL gpW2 (fun _ => 2) dims false res →
      res = .ok (List.replicate
        (dims.getD (List.replicate gpW2.kernel.klen true)).length 0) ∨
      (∃ e, res = .error e) ∨
      ∃ gp1 dn, Recompute gpW2 false (.ok (true, gp1)) ∧
        gp1.data = some dn ∧
        res = .ok ((maskSel
            (dims.getD (List.replicate gpW2.kernel.klen true))
            (gp1.kernel.grad dn.x dn.x)).map
          (gradTerm dn
            (choSolve dn.factor (residual gp1 dn fun _ => 2))))) ∧
    (∀ res, Predict gpW2 (fun _ => 2) (fun _ : Fin 1 => (0 : ℚ)) res →
      (∃ e, res = .error e) ∨
      ∃ gp1 dn, Recompute gpW2 false (.ok (true, gp1)) ∧
        gp1.data = some dn ∧
        res = .ok (predVal gp1 dn (fun _ => 2) fun _ : Fin 1 => (0 : ℚ))) ∧
    (∀ res, SampleNoT gpW2 (fun _ => 3) res → (∃ e, res = .error e) ∨
      ∃ gp1 dn, Recompute gpW2 false (.ok (true, gp1)) ∧
        gp1.data = some dn ∧
        res = .ok (permScatter dn.inds (priorSample gp1 dn fun _ => 3))) :=
  C2_dirty_flag_invalidation (Kern.constK 1 [2] true) [5] gpW2
    (fun _ => 2) (fun _ => 3) (fun _ : Fin 1 => (0 : ℚ)) false rfl

/-- C8: after `compute` with `sort=True` on 1-D input, the sample
generated for internally sorted position `j` is placed at original
input position `inds j`. -/
theorem C8_sample_unsorted_order {n : ℕ} (gp gpn : GPState n)
    (t : Fin n → ℚ) (yerr : ℝ) (u : Fin n → ℝ) (res : Fin n → ℝ)
    (d : GPData n) (hcomp : Compute1D gp t yerr true gpn)
    (hs : SampleNoT gpn u (.ok res)) (hd : gpn.data = some d) (j : Fin n) :
    res (d.inds j) = (u ⬝ᵥ fun i => d.factor i j) + gpn.mean (d.x j) := by
  cases hcomp with
  | mk σ R hσ hnd hchol =>
      have hcpt : GP.computed
          { kernel := gp.kernel.setDirty false
            mean := gp.mean
            computedFlag := true
            data := some ⟨fun i => [t (σ i)], fun _ => yerr, σ, R,
              lnConst R⟩ } = true := by
        unfold GP.computed
        simp [setDirty_dirty]
      cases hd
      cases hs with
      | val gp1 d2 h hd2 =>
          have hgp1 := recompute_of_computed _ false gp1 hcpt h
          subst hgp1
          cases hd2
          simp [permScatter, priorSample]

/-- Fresh engine with `WhiteKernel(1)` for the C8 witness. -/
def gpC8 : GPState 1 :=
  { kernel := .whiteK 1 [1] true
    mean := fun _ => 0
    computedFlag := false
    data := none }

/-- The 1-D coordinates of the C8 witness. -/
def tC8 : Fin 1 → ℚ := fun _ => 5

/-- The argsort permutation of the C8 witness coordinates. -/
def sigC8 : Equiv.Perm (Fin 1) := Tuple.sort tC8

/-- The unit Cholesky factor of the C8 witness covariance. -/
def RC8 : Matrix (Fin 1) (Fin 1) ℝ := fun _ _ => 1

/-- The data stored by the C8 witness `compute`. -/
def dC8 : GPData 1 :=
  ⟨fun i => [tC8 (sigC8 i)], fun _ => 0, sigC8, RC8, lnConst RC8⟩

/-- The C8 witness engine state after `compute`. -/
def gpC8s : GPState 1 :=
  { kernel := (Kern.whiteK 1 [1] true).setDirty false
    mean := fun _ => 0
    computedFlag := true
    data := some dC8 }

/-- `RC8` factors the C8 witness covariance (the identity). -/
theorem C8chol : IsCholesky
    (buildK gpC8.kernel (fun i => [tC8 (sigC8 i)]) fun _ => (0 : ℝ))
    RC8 := by
  refine ⟨?_, ?_, ?_⟩
  · intro i j hij
    have hi := i.isLt
    have hj := j.isLt
    omega
  · intro i
    show (0 : ℝ) < 1
    norm_num
  · funext i j
    have hi : i = 0 := Subsingleton.elim i 0
    have hj : j = 0 := Subsingleton.elim j 0
    subst hi
    subst hj
    rw [Matrix.mul_apply, Fin.sum_univ_one, Matrix.transpose_apply]
    show (1 : ℝ) * 1 = buildK gpC8.kernel (fun i => [tC8 (sigC8 i)])
      (fun _ => (0 : ℝ)) 0 0
    simp [gpC8, buildK, Kern.eval, sqDist]

/-- Witness for C8 at a one-point sorted compute followed by
`sample()`. -/
theorem C8_sample_unsorted_order_witness :
    permScatter dC8.inds (priorSample gpC8s dC8 fun _ => 3) (dC8.inds 0) =
      ((fun _ => (3 : ℝ)) ⬝ᵥ fun i => dC8.factor i 0) +
        gpC8s.mean (dC8.x 0) :=
  C8_sample_unsorted_order gpC8 gpC8s tC8 0 (fun _ => 3) _ dC8
    (Compute1D.mk sigC8 RC8 rfl rfl C8chol)
    (SampleNoT.val gpC8s dC8 (Recompute.done rfl) rfl) rfl 0

/-- C3 counterexample: with noise absent, `compute` uses
`yerr = TINY = 1.25e-12` and the diagonal of the one-point constant
covariance is increased by `TINY²`, which differs both from the floor
`TINY` itself and from `yerr² + TINY`. -/
theorem C3_tiny_floor_counterexample :
    buildK (Kern.constK 1 [1] true) (fun _ : Fin 1 => [0])
        (fun _ => TINY) 0 0 = 1 + TINY ^ 2 ∧
    TINY ^ 2 ≠ TINY ∧
    (1 : ℝ) + TINY ^ 2 ≠ 1 + TINY ∧
    (1 : ℝ) + TINY ^ 2 ≠ 1 + (TINY ^ 2 + TINY) := by
  refine ⟨?_, ?_, ?_, ?_⟩
  · simp [buildK, Kern.eval]
  · norm_num [TINY]
  · norm_num [TINY]
  · norm_num [TINY]

/-- C3 (amended): when `compute` runs without observational
uncertainties, `yerr` defaults to the fixed `TINY = 1.25e-12` and the
diagonal of `K = kernel(x, x)` is increased by `yerr² = TINY²` (the
floor enters through the default `yerr` and is squared) before the
Cholesky factorization. -/
theorem C3_tiny_squared {n : ℕ} (gp : GPState n) (t : Fin n → ℚ)
    (sort : Bool) (gpn : GPState n) (d : GPData n)
    (hcomp : Compute1D gp t TINY sort gpn) (hd : gpn.data = some d) :
    (∀ i, d.yerr i = TINY) ∧
    (∀ i j, buildK gp.kernel d.x d.yerr i j =
      gp.kernel.eval d.x d.x i j + if i = j then TINY ^ 2 else 0) ∧
    IsCholesky (buildK gp.kernel d.x d.yerr) d.factor := by
  cases hcomp with
  | mk σ R hσ hnd hchol =>
      cases hd
      exact ⟨fun i => rfl, fun i j => rfl, hchol⟩

/-- The factor of the C3 witness covariance `[[1 + TINY²]]`. -/
def RC3 : Matrix (Fin 1) (Fin 1) ℝ := fun _ _ => Real.sqrt (1 + TINY ^ 2)

/-- Fresh engine with `ConstantKernel(1)` for the C3 witness. -/
def gpC3 : GPState 1 :=
  { kernel := .constK 1 [1] true
    mean := fun _ => 0
    computedFlag := false
    data := none }

/-- The data stored by the C3 witness default-noise `compute`. -/
def dC3 : GPData 1 :=
  ⟨fun _ => [0], fun _ => TINY, 1, RC3, lnConst RC3⟩

/-- `RC3` factors the C3 witness covariance. -/
theorem C3chol : IsCholesky
    (buildK gpC3.kernel (fun _ : Fin 1 => [(0 : ℚ)]) fun _ => TINY)
    RC3 := by
  refine ⟨?_, ?_, ?_⟩
  · intro i j hij
    have hi := i.isLt
    have hj := j.isLt
    omega
  · intro i
    show 0 < Real.sqrt (1 + TINY ^ 2)
    apply Real.sqrt_pos.mpr
    positivity
  · funext i j
    have hi : i = 0 := Subsingleton.elim i 0
    have hj : j = 0 := Subsingleton.elim j 0
    subst hi
    subst hj
    rw [Matrix.mul_apply, Fin.sum_univ_one, Matrix.transpose_apply]
    show Real.sqrt (1 + TINY ^ 2) * Real.sqrt (1 + TINY ^ 2) = _
    rw [Real.mul_self_sqrt (by positivity)]
    simp [gpC3, buildK, Kern.eval]

/-- Witness for C3 (amended) at a one-point default-noise compute. -/
theorem C3_tiny_squared_witness :
    (∀ i, dC3.yerr i = TINY) ∧
    (∀ i j, buildK gpC3.kernel dC3.x dC3.yerr i j =
      gpC3.kernel.eval dC3.x dC3.x i j + if i = j then TINY ^ 2 else 0) ∧
    IsCholesky (buildK gpC3.kernel dC3.x dC3.yerr) dC3.factor :=
  C3_tiny_squared gpC3 (fun _ => 0) false _ dC3
    (Compute1D.mk 1 RC3 rfl rfl C3chol) rfl

end

end George

